import Mathlib

set_option autoImplicit false

/-!
Verification of the per-layer K-FAC statistics and preconditioning code of
deepqmc/pytorch-kfac (torch_kfac/layers/{linear_layer,conv_layer,identity}.py).

Tensors are shallowly embedded as a shape (list of dimension sizes) together
with row-major (C-contiguous) flat data over ℚ.  Every tensor operation used
by the source (unfold, transpose, unsqueeze, squeeze, constant padding,
view/reshape with -1 inference, matmul, concatenation, column slicing) is
translated directly; fallible operations return Option.  The helper module
torch_kfac/utils/utils.py and the base class torch_kfac/layers/layer.py are
not part of the sources; the definitions taken from them are modelled from
the specification and marked as such in their doc comments.
-/

/-! Part 1: definitions. -/

/-- Row-major linearization of a multi-index with respect to a shape. -/
def ravel : List Nat → List Nat → Nat
  | _ :: ss, i :: is => i * ss.prod + ravel ss is
  | _, _ => 0

/-- Inverse of `ravel`: recover the multi-index of a linear position. -/
def unravel : List Nat → Nat → List Nat
  | [], _ => []
  | _ :: ss, n => n / ss.prod :: unravel ss (n % ss.prod)

/-- Bounds check of a multi-index against a shape. -/
def validIdxB : List Nat → List Nat → Bool
  | [], [] => true
  | s :: ss, i :: is => decide (i < s) && validIdxB ss is
  | _, _ => false

/-! List helpers used by the tensor operations. -/

/-- Insert an element at position `n` (used to model torch unsqueeze). -/
def insertAt {α : Type} : Nat → α → List α → List α
  | 0, a, l => a :: l
  | _ + 1, a, [] => [a]
  | n + 1, a, x :: xs => x :: insertAt n a xs

/-- Remove the element at position `n` (used to model torch squeeze). -/
def removeAt {α : Type} : Nat → List α → List α
  | _, [] => []
  | 0, _ :: xs => xs
  | n + 1, x :: xs => x :: removeAt n xs

/-- Swap the entries at positions `d1` and `d2` (used to model torch transpose). -/
def swapAt2 (d1 d2 : Nat) (l : List Nat) : List Nat :=
  (l.set d1 (l.getD d2 0)).set d2 (l.getD d1 0)


/-- A tensor: a shape together with row-major flat data. -/
structure Tensor where
  shape : List Nat
  data : List ℚ
deriving DecidableEq

instance : Inhabited Tensor := ⟨⟨[], []⟩⟩

/-- A tensor is well-formed when its data has exactly one entry per position. -/
def Tensor.wf (t : Tensor) : Prop := t.data.length = t.shape.prod

/-- Entry of a tensor at a multi-index (0 outside the data, as a total default). -/
def Tensor.get (t : Tensor) (idx : List Nat) : ℚ := t.data.getD (ravel t.shape idx) 0

/-- Materialize a tensor of a given shape from an entry function. -/
def Tensor.ofFn (shape : List Nat) (f : List Nat → ℚ) : Tensor :=
  ⟨shape, (List.range shape.prod).map fun n => f (unravel shape n)⟩

/-- torch `Tensor.transpose(d1, d2)`: swap two axes (materialized). -/
def Tensor.transpose (t : Tensor) (d1 d2 : Nat) : Tensor :=
  Tensor.ofFn (swapAt2 d1 d2 t.shape) fun idx => t.get (swapAt2 d1 d2 idx)

/-- torch `Tensor.unsqueeze(d)`: insert a size-1 axis at position `d`. -/
def Tensor.unsqueeze (t : Tensor) (d : Nat) : Tensor :=
  Tensor.ofFn (insertAt d 1 t.shape) fun idx => t.get (removeAt d idx)

/-- torch `Tensor.squeeze(d)`: drop axis `d` when it has size 1. -/
def Tensor.squeeze (t : Tensor) (d : Nat) : Tensor :=
  if t.shape.getD d 0 = 1 then
    Tensor.ofFn (removeAt d t.shape) fun idx => t.get (insertAt d 0 idx)
  else t

/-- torch `Tensor.unfold(d, size, step)`: slide a window of length `size` with
stride `step` along axis `d`; the window offset becomes a new trailing axis. -/
def Tensor.unfold (t : Tensor) (d size step : Nat) : Tensor :=
  let L := (t.shape.getD d 0 - size) / step + 1
  Tensor.ofFn (t.shape.set d L ++ [size]) fun idx =>
    t.get ((idx.dropLast).set d (idx.dropLast.getD d 0 * step + idx.getLastD 0))

/-- Model of `F.pad` with constant-zero mode on the trailing `pads.length` axes, the same
amount on both sides of each axis (the form built at conv_layer.py:104). -/
def padSpatial (t : Tensor) (pads : List Nat) : Tensor :=
  let k := t.shape.length - pads.length
  let origs := t.shape.drop k
  Tensor.ofFn (t.shape.take k ++ List.zipWith (fun s p => s + 2 * p) origs pads)
    fun idx =>
      let head := idx.take k
      let tail := idx.drop k
      if (List.range pads.length).all (fun j =>
          decide (pads.getD j 0 ≤ tail.getD j 0) &&
          decide (tail.getD j 0 < pads.getD j 0 + origs.getD j 0)) then
        t.get (head ++ List.zipWith (fun i p => i - p) tail pads)
      else 0

/-- Resolve a torch `view`/`reshape` dimension list against an element count,
inferring a single -1 entry; `none` on inconsistent requests. -/
def resolveShape (numel : Nat) (dims : List Int) : Option (List Nat) :=
  if dims.all fun d => decide (0 ≤ d) then
    if (dims.map Int.toNat).prod = numel then some (dims.map Int.toNat) else none
  else if (dims.all fun d => d == -1 || decide (0 ≤ d)) &&
      ((dims.filter fun d => d == -1).length == 1) then
    let known := ((dims.filter fun d => decide (0 ≤ d)).map Int.toNat).prod
    if 0 < known ∧ numel % known = 0 then
      some (dims.map fun d => if d == -1 then numel / known else d.toNat)
    else none
  else none

/-- torch `Tensor.view` (the source always calls it on contiguous data, and our
tensors are materialized in row-major order, so a reinterpretation of the flat
data is exact). -/
def Tensor.view (t : Tensor) (dims : List Int) : Option Tensor :=
  (resolveShape t.shape.prod dims).map fun s => ⟨s, t.data⟩

/-- torch `Tensor.view_as(g)`. -/
def Tensor.view_as (t g : Tensor) : Option Tensor :=
  t.view (g.shape.map fun n => (n : Int))

/-- 2-D matrix product; `none` on shape mismatch. -/
def Tensor.matmul (a b : Tensor) : Option Tensor :=
  let m := a.shape.getD 0 0
  let k := a.shape.getD 1 0
  let n := b.shape.getD 1 0
  if a.shape = [m, k] ∧ b.shape = [k, n] then
    some (Tensor.ofFn [m, n] fun idx =>
      ((List.range k).map fun r => a.get [idx.getD 0 0, r] * b.get [r, idx.getD 1 0]).sum)
  else none

/-- torch `cat([a, b], -1)` for 2-D tensors; `none` on row-count mismatch. -/
def Tensor.catCols (a b : Tensor) : Option Tensor :=
  let m := a.shape.getD 0 0
  let n1 := a.shape.getD 1 0
  let n2 := b.shape.getD 1 0
  if a.shape = [m, n1] ∧ b.shape = [m, n2] then
    some (Tensor.ofFn [m, n1 + n2] fun idx =>
      if idx.getD 1 0 < n1 then a.get idx
      else b.get [idx.getD 0 0, idx.getD 1 0 - n1])
  else none

/-- Python `t[:, :-1]` on a 2-D tensor. -/
def Tensor.dropLastCol (t : Tensor) : Tensor :=
  let m := t.shape.getD 0 0
  let n := t.shape.getD 1 0
  Tensor.ofFn [m, n - 1] fun idx => t.get idx

/-- Python `t[:, -1]` on a 2-D tensor. -/
def Tensor.lastCol (t : Tensor) : Tensor :=
  let m := t.shape.getD 0 0
  let n := t.shape.getD 1 0
  Tensor.ofFn [m] fun idx => t.get [idx.getD 0 0, n - 1]

/-- Elementwise division of a tensor by a scalar (torch `t / c`). -/
def Tensor.divScalar (t : Tensor) (c : ℚ) : Tensor :=
  ⟨t.shape, t.data.map fun q => q / c⟩

/-- Modelled from the spec: `center` (torch_kfac/utils/utils.py, missing from
the sources) subtracts the column-wise mean from every row of a 2-D tensor. -/
def center (x : Tensor) : Tensor :=
  let m := x.shape.getD 0 0
  Tensor.ofFn x.shape fun idx =>
    x.get idx - ((List.range m).map fun r => x.get [r, idx.getD 1 0]).sum / (m : ℚ)

/-- Modelled from the spec: `compute_cov` (torch_kfac/utils/utils.py, missing
from the sources) computes `Xᵀ X / n` where `n` is the row count. -/
def compute_cov (x : Tensor) : Option Tensor :=
  ((x.transpose 0 1).matmul x).map fun g => g.divScalar (x.shape.getD 0 0 : ℚ)

/-- Modelled from the spec: `append_homog` (torch_kfac/utils/utils.py, missing
from the sources) appends a constant-one column to a 2-D tensor. -/
def append_homog (x : Tensor) : Tensor :=
  let m := x.shape.getD 0 0
  let n := x.shape.getD 1 0
  Tensor.ofFn [m, n + 1] fun idx => if idx.getD 1 0 < n then x.get idx else 1

/-- Laplace expansion of a determinant along the first row, with the matrix
size as structural fuel (rows as lists of entries). -/
def detN : Nat → List (List ℚ) → ℚ
  | 0, _ => 1
  | _ + 1, [] => 1
  | n + 1, r :: rs =>
    ((List.range r.length).map fun j =>
      (if j % 2 = 0 then (1 : ℚ) else -1) * r.getD j 0 *
        detN n (rs.map (removeAt j))).sum

/-- Determinant of a square matrix given as a list of rows. -/
def detRows (rows : List (List ℚ)) : ℚ := detN rows.length rows

/-- Exact matrix inverse over ℚ by the adjugate formula; `none` when singular. -/
def inverseRows (rows : List (List ℚ)) : Option (List (List ℚ)) :=
  let n := rows.length
  let d := detRows rows
  if d = 0 then none
  else some ((List.range n).map fun i => (List.range n).map fun j =>
    (if (i + j) % 2 = 0 then (1 : ℚ) else -1) *
      detRows ((removeAt j rows).map (removeAt i)) / d)

/-- Modelled from the spec: `inverse_by_cholesky(M, damp)` (torch_kfac/utils/
utils.py, missing from the sources) computes `(M + damp·I)⁻¹`, reporting a
numerical error when the damped matrix is not invertible; modelled by exact
adjugate/determinant inversion over ℚ with `none` as the failure signal. -/
def inverse_by_cholesky (m : Tensor) (damp : ℚ) : Option Tensor :=
  let n := m.shape.getD 0 0
  if m.shape = [n, n] then
    (inverseRows ((List.range n).map fun i => (List.range n).map fun j =>
        m.get [i, j] + if i = j then damp else 0)).map fun rows =>
      Tensor.ofFn [n, n] fun idx => (rows.getD (idx.getD 0 0) []).getD (idx.getD 1 0) 0
  else none

/-- Modelled from the spec: `Layer.compute_damping` (torch_kfac/layers/layer.py,
missing from the sources) splits one scalar damping between the activation and
sensitivity factors (pi-adjusted).  The spec fixes only that both values are
positive, that the aggregate damping is preserved, and that equal-scale factors
receive equal values, the exact ratio being a configuration policy; the neutral
equal split is modelled.  The second argument is the normalization the
convolutional layer passes (its spatial-location count). -/
def compute_damping (damping : ℚ) (_normalization : ℚ) : ℚ × ℚ :=
  (damping, damping)

/-- State of a covariance accumulator (torch_kfac/layers/layer.py, missing from
the sources): a sample count and the current running-average matrix. -/
structure CovAccumulator where
  count : Nat
  value : Tensor
deriving DecidableEq

/-- Modelled from the spec: `add_to_average` (covariance accumulator, missing
from the sources) folds a newly computed covariance estimate into a running
average; the policy is a configuration option, modelled as the count-weighted
mean. -/
def add_to_average (acc : CovAccumulator) (sample : Tensor) : CovAccumulator :=
  ⟨acc.count + 1,
   Tensor.ofFn sample.shape fun idx =>
     ((acc.count : ℚ) * acc.value.get idx + sample.get idx) / ((acc.count : ℚ) + 1)⟩

namespace LinearLayer

/-- Source `LinearLayer.update_cov` (linear_layer.py:36-48): optionally center the
captured activations and sensitivities, append the homogeneous column to the
activations when the layer has a bias, compute both covariances and fold them
into the accumulators. -/
def update_cov (centerFlag has_bias : Bool) (act sen : Tensor)
    (accA accS : CovAccumulator) : Option (CovAccumulator × CovAccumulator) := do
  let act := if centerFlag then center act else act
  let sen := if centerFlag then center sen else sen
  let act := if has_bias then append_homog act else act
  let activation_cov ← compute_cov act
  let sensitivity_cov ← compute_cov sen
  some (add_to_average accA activation_cov, add_to_average accS sensitivity_cov)

/-- Source `LinearLayer.grads_to_mat` (linear_layer.py:50-56): concatenate the bias
gradient as an extra column when the layer has a bias. -/
def grads_to_mat (has_bias : Bool) (grads : List Tensor) : Option Tensor :=
  if has_bias then
    match grads with
    | [weights, bias] => weights.catCols (bias.unsqueeze 1)
    | _ => none
  else
    match grads with
    | g :: _ => some g
    | [] => none

/-- Source `LinearLayer.mat_to_grads` (linear_layer.py:58-62): split the last column
off again when the layer has a bias. -/
def mat_to_grads (has_bias : Bool) (mat_grads : Tensor) : List Tensor :=
  if has_bias then [mat_grads.dropLastCol, mat_grads.lastCol] else [mat_grads]

end LinearLayer

namespace ConvLayer

/-- Static configuration of the wrapped convolution module (kernel size,
stride and padding per spatial dimension; padding mode `zeros`, the default,
which conv_layer.py:102-103 maps to constant-zero fill). -/
structure Config where
  kernel_size : List Nat
  stride : List Nat
  padding : List Nat
deriving DecidableEq

/-- The unfold loop of `extract_patches` (conv_layer.py:106-107): one
`unfold(i+2, size, stride)` per spatial dimension. -/
def unfoldAll (x : Tensor) (ks : List (Nat × Nat)) (i : Nat) : Tensor :=
  match ks with
  | [] => x
  | (size, step) :: rest => unfoldAll (x.unfold (i + 2) size step) rest (i + 1)

/-- The windowing and flattening part of `extract_patches`
(conv_layer.py:105-118), after the optional padding: unfold every spatial
dimension, move the channel axis behind the location axes
(`unsqueeze(2+n_dim).transpose(1, 2+n_dim).squeeze(1)`, line 110), then view
as `(batch, sum of per-dimension location counts, -1)` (lines 114-118; note
the source computes the SUM, not the product, of the location counts). -/
def window (cfg : Config) (x : Tensor) : Option Tensor :=
  let n_dim := cfg.kernel_size.length
  let xu := unfoldAll x (cfg.kernel_size.zip cfg.stride) 0
  let xr := ((xu.unsqueeze (2 + n_dim)).transpose 1 (2 + n_dim)).squeeze 1
  xr.view [(xr.shape.getD 0 0 : Int),
           (((List.range n_dim).map fun i => xr.shape.getD (1 + i) 0).sum : Int), -1]

/-- Source `ConvLayer.extract_patches` (conv_layer.py:96-119): pad the input when any
configured padding is non-zero (line 100-104), then window and flatten. -/
def extract_patches (cfg : Config) (x : Tensor) : Option Tensor :=
  if 0 < cfg.padding.sum then window cfg (padSpatial x cfg.padding)
  else window cfg x

/-- Source `ConvLayer.update_cov` (conv_layer.py:45-59): flatten the captured
`(batch, locations, features)` tensors to 2-D with `reshape(-1, shape[-1])`,
then proceed as the linear layer does (center, bias column, covariances,
accumulators). -/
def update_cov (centerFlag has_bias : Bool) (act sen : Tensor)
    (accA accS : CovAccumulator) : Option (CovAccumulator × CovAccumulator) := do
  let act ← act.view [-1, (act.shape.getLastD 0 : Int)]
  let sen ← sen.view [-1, (sen.shape.getLastD 0 : Int)]
  let act := if centerFlag then center act else act
  let sen := if centerFlag then center sen else sen
  let act := if has_bias then append_homog act else act
  let activation_cov ← compute_cov act
  let sensitivity_cov ← compute_cov sen
  some (add_to_average accA activation_cov, add_to_average accS sensitivity_cov)

/-- The gradient-matrix assembly inside `ConvLayer.multiply_preconditioner`
(conv_layer.py:67-74).  With a bias the weight gradient is flattened to
`(out_features, -1)` and the bias gradient concatenated as a last column.
Without a bias the source evaluates `grads.shape` (line 74) on the tuple of
gradient tensors; a tuple has no attribute `shape`, so the call raises
AttributeError — modelled as `none`. -/
def grads_mat (has_bias : Bool) (grads : List Tensor) : Option Tensor :=
  if has_bias then
    match grads with
    | [weights, bias] => do
      let w ← weights.view [(weights.shape.getD 0 0 : Int), -1]
      w.catCols (bias.unsqueeze 1)
    | _ => none
  else none

/-- Source `ConvLayer.multiply_preconditioner` (conv_layer.py:61-83): invert the two
damped covariance factors, assemble the gradient matrix, form
`sen⁻¹ · mat · act⁻¹ / renorm_coeff` with `renorm_coeff` the spatial-location
count `activations.shape[1]`, and split/reshape back to the parameter shapes. -/
def multiply_preconditioner (has_bias : Bool) (act_cov sen_cov : Tensor)
    (activations : Tensor) (grads : List Tensor) (damping : ℚ) :
    Option (List Tensor) := do
  let (a_damp, s_damp) := compute_damping damping (activations.shape.getD 1 0 : ℚ)
  let act_cov_inverse ← inverse_by_cholesky act_cov a_damp
  let sen_cov_inverse ← inverse_by_cholesky sen_cov s_damp
  let mat_grads ← grads_mat has_bias grads
  let renorm_coeff : ℚ := (activations.shape.getD 1 0 : ℚ)
  let t1 ← sen_cov_inverse.matmul mat_grads
  let t2 ← t1.matmul act_cov_inverse
  let nat_grads := t2.divScalar renorm_coeff
  if has_bias then do
    let w ← (nat_grads.dropLastCol).view_as (grads.getD 0 default)
    some [w, nat_grads.lastCol]
  else do
    let w ← nat_grads.view_as (grads.getD 0 default)
    some [w]

end ConvLayer

namespace IdentityLayer

/-- Observable state of an identity layer: the two covariance accumulators it
inherits from the base class (torch_kfac/layers/layer.py, missing from the
sources; the identity layer constructs them with both feature counts 0 and
never touches them). -/
structure State where
  activations_cov : CovAccumulator
  sensitivities_cov : CovAccumulator
deriving DecidableEq

/-- Source `IdentityLayer.update_cov` (identity.py:16-17): a bare `return`, no state
is read or written. -/
def update_cov (s : State) : State := s

/-- Source `IdentityLayer.multiply_preconditioner` (identity.py:19-20): returns the
gradients unchanged. -/
def multiply_preconditioner (grads : List Tensor) (_damping : ℚ) : List Tensor :=
  grads

/-- Source `IdentityLayer.vars` (identity.py:26-28): the empty tuple. -/
def vars : List Tensor := []

end IdentityLayer

/-- Input of shape (1, 1, 4, 4) for a 2-D convolution, entries 0..15. -/
def c1Input : Tensor := ⟨[1, 1, 4, 4], (List.range 16).map fun n => (n : ℚ)⟩

/-- Conv2d configuration: kernel (2,2), stride (1,1), padding (0,0). -/
def c1Cfg : ConvLayer.Config := ⟨[2, 2], [1, 1], [0, 0]⟩

/-- Input of shape (1, 2, 3) for a 1-D convolution with two channels,
entry at (0, c, s) equal to 10·c + s. -/
def c3Input : Tensor := ⟨[1, 2, 3], [0, 1, 2, 10, 11, 12]⟩

/-- Conv1d configuration: kernel 2, stride 1, no padding. -/
def c3Cfg : ConvLayer.Config := ⟨[2], [1], [0]⟩

/-- Identity matrix of size 2. -/
def eye2 : Tensor := ⟨[2, 2], [1, 0, 0, 1]⟩

/-- Identity matrix of size 3. -/
def eye3 : Tensor := ⟨[3, 3], [1, 0, 0, 0, 1, 0, 0, 0, 1]⟩

/-- Identity matrix of size 1. -/
def eye1 : Tensor := ⟨[1, 1], [1]⟩

/-- Captured activations of shape (1, 2, 2): two spatial locations. -/
def actsTwoLoc : Tensor := ⟨[1, 2, 2], [0, 0, 0, 0]⟩

/-- Captured activations of shape (1, 4, 2): four spatial locations. -/
def actsFourLoc : Tensor := ⟨[1, 4, 2], [0, 0, 0, 0, 0, 0, 0, 0]⟩

/-- Weight gradient of a biased Conv1d(1, 2, kernel 2): shape (2, 1, 2). -/
def wGradBiased : Tensor := ⟨[2, 1, 2], [1, 2, 3, 4]⟩

/-- Bias gradient of that layer: shape (2,). -/
def bGradBiased : Tensor := ⟨[2], [5, 6]⟩

/-- Weight gradient of a bias-free Conv1d(1, 1, kernel 2): shape (1, 1, 2). -/
def wGradUnbiased : Tensor := ⟨[1, 1, 2], [1, 2]⟩

/-- Input of shape (2, 1, 5) for the C4 instance. -/
def c4Input : Tensor := ⟨[2, 1, 5], (List.range 10).map fun n => (n : ℚ)⟩
/-- Captured sensitivities of shape (1, 2, 1). -/
def sensTwoLoc : Tensor := ⟨[1, 2, 1], [1, 2]⟩
/-- Fresh 3-by-3 activation-covariance accumulator. -/
def accA3 : CovAccumulator := ⟨0, ⟨[3, 3], List.replicate 9 0⟩⟩
/-- Fresh 1-by-1 sensitivity-covariance accumulator. -/
def accS1 : CovAccumulator := ⟨0, ⟨[1, 1], [0]⟩⟩
/-- Conv1d configuration with kernel 2, stride 1, padding 1. -/
def padCfg : ConvLayer.Config := ⟨[2], [1], [1]⟩
/-- Input of shape (1, 1, 3) for the padding instance. -/
def padInput : Tensor := ⟨[1, 1, 3], [5, 7, 9]⟩
/-- Activation batch of shape (2, 1). -/
def actX6 : Tensor := ⟨[2, 1], [1, 2]⟩
/-- Weight gradient of shape (2, 1). -/
def gradW6 : Tensor := ⟨[2, 1], [3, 4]⟩
/-- Bias gradient of shape (2,). -/
def gradB6 : Tensor := ⟨[2], [5, 6]⟩
/-- Assembled gradient matrix of shape (2, 2). -/
def matM6 : Tensor := ⟨[2, 2], [9, 8, 7, 6]⟩
/-- Convolution weight gradient of shape (2, 1, 1). -/
def gradWc6 : Tensor := ⟨[2, 1, 1], [11, 12]⟩
/-- Convolution bias gradient of shape (2,). -/
def gradBc6 : Tensor := ⟨[2], [13, 14]⟩
/-- Weight gradient of shape (2, 3). -/
def linW10 : Tensor := ⟨[2, 3], [1, 2, 3, 4, 5, 6]⟩
/-- Bias gradient of shape (2,) to pair with it. -/
def linB10 : Tensor := ⟨[2], [7, 8]⟩


/-! Part 2: general lemmas about the embedding. -/

theorem ravel_lt (shape : List Nat) : ∀ idx, validIdxB shape idx = true →
    ravel shape idx < shape.prod := by
  induction shape with
  | nil =>
    intro idx h
    cases idx with
    | nil => simp [ravel]
    | cons i is => simp [validIdxB] at h
  | cons s ss ih =>
    intro idx h
    cases idx with
    | nil => simp [validIdxB] at h
    | cons i is =>
      simp only [validIdxB, Bool.and_eq_true, decide_eq_true_eq] at h
      have h2 := ih is h.2
      have hP : 0 < ss.prod := Nat.lt_of_le_of_lt (Nat.zero_le _) h2
      simp only [ravel, List.prod_cons]
      calc i * ss.prod + ravel ss is < i * ss.prod + ss.prod := by omega
        _ = (i + 1) * ss.prod := by ring
        _ ≤ s * ss.prod := Nat.mul_le_mul_right _ h.1

theorem unravel_ravel (shape : List Nat) : ∀ idx, validIdxB shape idx = true →
    unravel shape (ravel shape idx) = idx := by
  induction shape with
  | nil =>
    intro idx h
    cases idx with
    | nil => rfl
    | cons i is => simp [validIdxB] at h
  | cons s ss ih =>
    intro idx h
    cases idx with
    | nil => simp [validIdxB] at h
    | cons i is =>
      simp only [validIdxB, Bool.and_eq_true, decide_eq_true_eq] at h
      have hr := ravel_lt ss is h.2
      have hP : 0 < ss.prod := Nat.lt_of_le_of_lt (Nat.zero_le _) hr
      simp only [ravel, unravel, List.cons.injEq]
      constructor
      · rw [Nat.add_comm, Nat.add_mul_div_right _ _ hP, Nat.div_eq_of_lt hr]
        omega
      · rw [Nat.add_comm, Nat.add_mul_mod_self_right, Nat.mod_eq_of_lt hr]
        exact ih is h.2

theorem ravel_unravel (shape : List Nat) : ∀ n, n < shape.prod →
    ravel shape (unravel shape n) = n := by
  induction shape with
  | nil =>
    intro n h
    simp only [List.prod_nil] at h
    interval_cases n
    rfl
  | cons s ss ih =>
    intro n h
    simp only [List.prod_cons] at h
    have hP : 0 < ss.prod := Nat.pos_of_ne_zero fun h0 => by
      rw [h0, Nat.mul_zero] at h
      exact Nat.not_lt_zero _ h
    have hm : n % ss.prod < ss.prod := Nat.mod_lt _ hP
    simp only [unravel, ravel]
    rw [ih _ hm]
    rw [Nat.mul_comm]
    exact Nat.div_add_mod n ss.prod

theorem validIdx_unravel (shape : List Nat) : ∀ n, n < shape.prod →
    validIdxB shape (unravel shape n) = true := by
  induction shape with
  | nil => intro n h; rfl
  | cons s ss ih =>
    intro n h
    simp only [List.prod_cons] at h
    have hP : 0 < ss.prod := Nat.pos_of_ne_zero fun h0 => by
      rw [h0, Nat.mul_zero] at h
      exact Nat.not_lt_zero _ h
    have hm : n % ss.prod < ss.prod := Nat.mod_lt _ hP
    simp only [unravel, validIdxB, Bool.and_eq_true, decide_eq_true_eq]
    refine ⟨?_, ih _ hm⟩
    rw [Nat.div_lt_iff_lt_mul hP]
    omega


theorem getD_map_range (f : Nat → ℚ) (n m : Nat) (h : m < n) :
    ((List.range n).map f).getD m 0 = f m := by
  rw [List.getD_eq_getElem?_getD, List.getElem?_map, List.getElem?_range h]
  rfl

@[simp] theorem Tensor.shape_ofFn (shape : List Nat) (f : List Nat → ℚ) :
    (Tensor.ofFn shape f).shape = shape := rfl

theorem Tensor.data_ofFn_length (shape : List Nat) (f : List Nat → ℚ) :
    (Tensor.ofFn shape f).data.length = shape.prod := by
  simp [Tensor.ofFn]

theorem Tensor.getD_data_ofFn (shape : List Nat) (f : List Nat → ℚ) (n : Nat)
    (h : n < shape.prod) :
    (Tensor.ofFn shape f).data.getD n 0 = f (unravel shape n) :=
  getD_map_range _ _ _ h

theorem Tensor.get_ofFn (shape : List Nat) (f : List Nat → ℚ) (idx : List Nat)
    (h : validIdxB shape idx = true) :
    (Tensor.ofFn shape f).get idx = f idx := by
  show (Tensor.ofFn shape f).data.getD (ravel shape idx) 0 = f idx
  rw [Tensor.getD_data_ofFn _ _ _ (ravel_lt _ _ h), unravel_ravel _ _ h]


theorem natCast_beq_negOne (n : Nat) : ((n : Int) == -1) = false := by
  simp only [beq_eq_false_iff_ne, ne_eq]
  omega

theorem natCast_decide_nonneg (n : Nat) : (decide (0 ≤ (n : Int))) = true := by
  simp [Int.natCast_nonneg]

theorem resolveShape_BL_neg1 (numel B L : Nat) (hBL : 0 < B * L)
    (hdvd : numel % (B * L) = 0) :
    resolveShape numel [(B : Int), (L : Int), -1] = some [B, L, numel / (B * L)] := by
  simp only [resolveShape, List.all_cons, List.all_nil, List.filter, natCast_beq_negOne,
    natCast_decide_nonneg, List.map_cons, List.map_nil, List.prod_cons, List.prod_nil]
  norm_num
  intro h
  have hB : 0 < B := Nat.pos_of_ne_zero fun h0 => by subst h0; simp at hBL
  have hL : 0 < L := Nat.pos_of_ne_zero fun h0 => by subst h0; simp at hBL
  exact absurd hdvd (h hB hL)

theorem resolveShape_m_neg1 (numel m : Nat) (hm : 0 < m) (hdvd : numel % m = 0) :
    resolveShape numel [(m : Int), -1] = some [m, numel / m] := by
  simp only [resolveShape, List.all_cons, List.all_nil, List.filter, natCast_beq_negOne,
    natCast_decide_nonneg, List.map_cons, List.map_nil, List.prod_cons, List.prod_nil]
  norm_num
  intro h
  exact absurd hdvd (h hm)

theorem resolveShape_neg1_F (numel F : Nat) (hF : 0 < F) (hdvd : numel % F = 0) :
    resolveShape numel [-1, (F : Int)] = some [numel / F, F] := by
  simp only [resolveShape, List.all_cons, List.all_nil, List.filter, natCast_beq_negOne,
    natCast_decide_nonneg, List.map_cons, List.map_nil, List.prod_cons, List.prod_nil]
  norm_num
  intro h
  exact absurd hdvd (h hF)


/-! ## Entry characterizations of the tensor operations -/

theorem Tensor.get_transpose (t : Tensor) (d1 d2 : Nat) (idx : List Nat)
    (h : validIdxB (swapAt2 d1 d2 t.shape) idx = true) :
    (t.transpose d1 d2).get idx = t.get (swapAt2 d1 d2 idx) :=
  Tensor.get_ofFn _ _ _ h

theorem Tensor.get_unsqueeze (t : Tensor) (d : Nat) (idx : List Nat)
    (h : validIdxB (insertAt d 1 t.shape) idx = true) :
    (t.unsqueeze d).get idx = t.get (removeAt d idx) :=
  Tensor.get_ofFn _ _ _ h

theorem Tensor.get_squeeze (t : Tensor) (d : Nat) (idx : List Nat)
    (h1 : t.shape.getD d 0 = 1) (h : validIdxB (removeAt d t.shape) idx = true) :
    (t.squeeze d).get idx = t.get (insertAt d 0 idx) := by
  rw [Tensor.squeeze, if_pos h1]
  exact Tensor.get_ofFn _ _ _ h

theorem Tensor.get_unfold (t : Tensor) (d size step : Nat) (idx : List Nat)
    (h : validIdxB (t.shape.set d ((t.shape.getD d 0 - size) / step + 1) ++ [size]) idx = true) :
    (t.unfold d size step).get idx =
      t.get ((idx.dropLast).set d (idx.dropLast.getD d 0 * step + idx.getLastD 0)) :=
  Tensor.get_ofFn _ _ _ h

/-! ## The 1-D patch-extraction pipeline, stage by stage -/

theorem unfold_1d_shape (B C Sp k stride : Nat) (xp : Tensor)
    (hxps : xp.shape = [B, C, Sp]) :
    (xp.unfold 2 k stride).shape = [B, C, (Sp - k) / stride + 1, k] := by
  simp [Tensor.unfold, hxps, List.set, List.getD]

theorem unfold_1d_get (B C Sp k stride : Nat) (xp : Tensor) (hxps : xp.shape = [B, C, Sp])
    (b c l o : Nat) (hb : b < B) (hc : c < C)
    (hl : l < (Sp - k) / stride + 1) (ho : o < k) :
    (xp.unfold 2 k stride).get [b, c, l, o] = xp.get [b, c, l * stride + o] := by
  rw [Tensor.get_unfold]
  · simp [List.dropLast, List.set, List.getD, List.getLastD]
  · simp [hxps, List.set, List.getD, validIdxB, hb, hc, hl, ho]

theorem rearrange_1d_shape (B C L k : Nat) (u : Tensor) (hu : u.shape = [B, C, L, k]) :
    (((u.unsqueeze 3).transpose 1 3).squeeze 1).shape = [B, L, C, k] := by
  have h1 : (u.unsqueeze 3).shape = [B, C, L, 1, k] := by
    simp [Tensor.unsqueeze, hu, insertAt]
  have h2 : ((u.unsqueeze 3).transpose 1 3).shape = [B, 1, L, C, k] := by
    simp [Tensor.transpose, h1, swapAt2, List.set, List.getD]
  simp [Tensor.squeeze, h2, List.getD, removeAt]

theorem rearrange_1d_get (B C L k : Nat) (u : Tensor) (hu : u.shape = [B, C, L, k])
    (b l c o : Nat) (hb : b < B) (hl : l < L) (hc : c < C) (ho : o < k) :
    (((u.unsqueeze 3).transpose 1 3).squeeze 1).get [b, l, c, o] = u.get [b, c, l, o] := by
  have h1 : (u.unsqueeze 3).shape = [B, C, L, 1, k] := by
    simp [Tensor.unsqueeze, hu, insertAt]
  have h2 : ((u.unsqueeze 3).transpose 1 3).shape = [B, 1, L, C, k] := by
    simp [Tensor.transpose, h1, swapAt2, List.set, List.getD]
  rw [Tensor.get_squeeze]
  · rw [show insertAt 1 0 [b, l, c, o] = [b, 0, l, c, o] from rfl]
    rw [Tensor.get_transpose]
    · rw [show swapAt2 1 3 [b, 0, l, c, o] = [b, c, l, 0, o] from rfl]
      rw [Tensor.get_unsqueeze]
      · rfl
      · simp [hu, insertAt, validIdxB, hb, hc, hl, ho]
    · simp [h1, swapAt2, List.set, List.getD, validIdxB, hb, hc, hl, ho]
  · simp [h2, List.getD]
  · simp [h2, removeAt, validIdxB, hb, hc, hl, ho]


theorem view_merge_1d (xr : Tensor) (B L C k : Nat) (hxrs : xr.shape = [B, L, C, k])
    (hB : 0 < B) (hL : 0 < L) :
    xr.view [(xr.shape.getD 0 0 : Int),
      (((List.range 1).map fun i => xr.shape.getD (1 + i) 0).sum : Int), -1] =
    some ⟨[B, L, C * k], xr.data⟩ := by
  have hBL : 0 < B * L := Nat.mul_pos hB hL
  have hnum : ([B, L, C, k] : List Nat).prod = B * L * (C * k) := by
    simp [List.prod_cons]
    ring
  rw [Tensor.view, hxrs, hnum]
  simp only [List.range_succ, List.range_zero, List.nil_append, List.map_cons,
    List.map_nil, List.sum_cons, List.sum_nil, Nat.add_zero, List.getD_cons_zero,
    List.getD_cons_succ]
  rw [resolveShape_BL_neg1 _ _ _ hBL (by simp [Nat.mul_mod_right])]
  rw [Nat.mul_div_cancel_left _ hBL]
  rfl

theorem window_1d (k stride : Nat) (pl : List Nat) (B C Sp : Nat) (xp : Tensor)
    (hxps : xp.shape = [B, C, Sp]) (hB : 0 < B) :
    ∃ t, ConvLayer.window ⟨[k], [stride], pl⟩ xp = some t ∧
      t.shape = [B, (Sp - k) / stride + 1, C * k] ∧
      ∀ b l c o, b < B → l < (Sp - k) / stride + 1 → c < C → o < k →
        t.get [b, l, c * k + o] = xp.get [b, c, l * stride + o] := by
  have hL : 0 < (Sp - k) / stride + 1 := Nat.succ_pos _
  have hus := unfold_1d_shape B C Sp k stride xp hxps
  have hxrs := rearrange_1d_shape B C ((Sp - k) / stride + 1) k _ hus
  refine ⟨⟨[B, (Sp - k) / stride + 1, C * k],
      ((((xp.unfold 2 k stride).unsqueeze 3).transpose 1 3).squeeze 1).data⟩, ?_, rfl, ?_⟩
  · exact view_merge_1d _ B ((Sp - k) / stride + 1) C k hxrs hB hL
  · intro b l c o hb hl hc ho
    have hrav : ravel [B, (Sp - k) / stride + 1, C * k] [b, l, c * k + o] =
        ravel [B, (Sp - k) / stride + 1, C, k] [b, l, c, o] := by
      simp [ravel, List.prod_cons, List.prod_nil]
    have e1 : (Tensor.mk [B, (Sp - k) / stride + 1, C * k]
          ((((xp.unfold 2 k stride).unsqueeze 3).transpose 1 3).squeeze 1).data).get
          [b, l, c * k + o]
        = ((((xp.unfold 2 k stride).unsqueeze 3).transpose 1 3).squeeze 1).data.getD
            (ravel [B, (Sp - k) / stride + 1, C, k] [b, l, c, o]) 0 := by
      show ((((xp.unfold 2 k stride).unsqueeze 3).transpose 1 3).squeeze 1).data.getD
          (ravel [B, (Sp - k) / stride + 1, C * k] [b, l, c * k + o]) 0 = _
      rw [hrav]
    have e2 : ((((xp.unfold 2 k stride).unsqueeze 3).transpose 1 3).squeeze 1).get [b, l, c, o]
        = ((((xp.unfold 2 k stride).unsqueeze 3).transpose 1 3).squeeze 1).data.getD
            (ravel [B, (Sp - k) / stride + 1, C, k] [b, l, c, o]) 0 := by
      show ((((xp.unfold 2 k stride).unsqueeze 3).transpose 1 3).squeeze 1).data.getD
          (ravel ((((xp.unfold 2 k stride).unsqueeze 3).transpose 1 3).squeeze 1).shape
            [b, l, c, o]) 0 = _
      rw [hxrs]
    rw [e1, ← e2,
      rearrange_1d_get B C ((Sp - k) / stride + 1) k _ hus b l c o hb hl hc ho,
      unfold_1d_get B C Sp k stride xp hxps b c l o hb hc hl ho]


theorem padSpatial_1d_shape (B C S p : Nat) (x : Tensor) (hx : x.shape = [B, C, S]) :
    (padSpatial x [p]).shape = [B, C, S + 2 * p] := by
  simp [padSpatial, hx]

theorem padSpatial_1d_get_inner (B C S p : Nat) (x : Tensor) (hx : x.shape = [B, C, S])
    (b c s : Nat) (hb : b < B) (hc : c < C) (hplo : p ≤ s) (hshi : s < p + S) :
    (padSpatial x [p]).get [b, c, s] = x.get [b, c, s - p] := by
  simp only [padSpatial, hx]
  rw [Tensor.get_ofFn]
  · simp only [List.take, List.drop, List.getD_cons_zero, List.range_succ, List.range_zero,
      List.nil_append, List.all_cons, List.all_nil, List.zipWith]
    rw [if_pos]
    · rfl
    · simp [hplo, hshi]
  · simp only [List.length_cons, List.length_nil, List.take, List.drop, List.zipWith,
      List.nil_append]
    simp [validIdxB, hb, hc]
    omega

theorem padSpatial_zero_get (B C S : Nat) (x : Tensor) (hx : x.shape = [B, C, S])
    (b c s : Nat) (hb : b < B) (hc : c < C) (hs : s < S) :
    (padSpatial x [0]).get [b, c, s] = x.get [b, c, s] := by
  have h := padSpatial_1d_get_inner B C S 0 x hx b c s hb hc (Nat.zero_le _) (by omega)
  simpa using h

theorem extract_patches_1d (k stride p B C S : Nat) (x : Tensor)
    (hx : x.shape = [B, C, S]) (hB : 0 < B) (hfit : k ≤ S + 2 * p) :
    ∃ t, ConvLayer.extract_patches ⟨[k], [stride], [p]⟩ x = some t ∧
      t.shape = [B, (S + 2 * p - k) / stride + 1, C * k] ∧
      ∀ b l c o, b < B → l < (S + 2 * p - k) / stride + 1 → c < C → o < k →
        t.get [b, l, c * k + o] = (padSpatial x [p]).get [b, c, l * stride + o] := by
  rcases Nat.eq_zero_or_pos p with hp | hp
  · subst hp
    have hee : ConvLayer.extract_patches ⟨[k], [stride], [0]⟩ x =
        ConvLayer.window ⟨[k], [stride], [0]⟩ x := by
      simp [ConvLayer.extract_patches]
    obtain ⟨t, ht, hts, htg⟩ := window_1d k stride [0] B C S x hx hB
    refine ⟨t, by rw [hee, ht], by simpa using hts, ?_⟩
    intro b l c o hb hl hc ho
    have h1 : l ≤ (S - k) / stride := Nat.lt_succ_iff.mp (by simpa using hl)
    have h2 : l * stride ≤ (S - k) / stride * stride := Nat.mul_le_mul_right _ h1
    have h3 : (S - k) / stride * stride ≤ S - k := Nat.div_mul_le_self _ _
    have h5 : l * stride + o < (S - k) + k :=
      Nat.lt_of_lt_of_le (Nat.add_lt_add_left ho _) (Nat.add_le_add_right (le_trans h2 h3) k)
    have hbound : l * stride + o < S := by
      rwa [Nat.sub_add_cancel (by simpa using hfit)] at h5
    rw [padSpatial_zero_get B C S x hx b c _ hb hc hbound]
    exact htg b l c o hb (by simpa using hl) hc ho
  · have hee : ConvLayer.extract_patches ⟨[k], [stride], [p]⟩ x =
        ConvLayer.window ⟨[k], [stride], [p]⟩ (padSpatial x [p]) := by
      simp [ConvLayer.extract_patches, hp]
    have hxps := padSpatial_1d_shape B C S p x hx
    obtain ⟨t, ht, hts, htg⟩ :=
      window_1d k stride [p] B C (S + 2 * p) (padSpatial x [p]) hxps hB
    exact ⟨t, by rw [hee, ht], hts, fun b l c o hb hl hc ho => htg b l c o hb hl hc ho⟩


theorem validIdxB_two (m n : Nat) (idx : List Nat) (h : validIdxB [m, n] idx = true) :
    ∃ i j, idx = [i, j] ∧ i < m ∧ j < n := by
  match idx with
  | [] => simp [validIdxB] at h
  | [i] => simp [validIdxB] at h
  | i :: j :: [] =>
    simp only [validIdxB, Bool.and_eq_true, decide_eq_true_eq] at h
    exact ⟨i, j, rfl, h.1, h.2.1⟩
  | i :: j :: a :: rest => simp [validIdxB] at h

theorem validIdxB_one (m : Nat) (idx : List Nat) (h : validIdxB [m] idx = true) :
    ∃ i, idx = [i] ∧ i < m := by
  match idx with
  | [] => simp [validIdxB] at h
  | i :: [] =>
    simp only [validIdxB, Bool.and_eq_true, decide_eq_true_eq] at h
    exact ⟨i, rfl, h.1⟩
  | i :: a :: rest => simp [validIdxB] at h

theorem getD_range_map_self (l : List ℚ) :
    (List.range l.length).map (fun i => l.getD i 0) = l := by
  apply List.ext_getElem
  · simp
  · intro i h1 h2
    simp [List.getD_eq_getElem?_getD, List.getElem?_eq_getElem h2]

/-- Two well-formed tensors of the same shape with the same entries are equal. -/
theorem Tensor.eq_of_get (t w : Tensor) (hsh : t.shape = w.shape)
    (hwft : t.wf) (hwfw : w.wf)
    (hget : ∀ idx, validIdxB w.shape idx = true → t.get idx = w.get idx) : t = w := by
  obtain ⟨ts, td⟩ := t
  obtain ⟨ws, wd⟩ := w
  simp only at hsh
  subst hsh
  simp only [Tensor.mk.injEq, true_and]
  simp only [Tensor.wf] at hwft hwfw
  apply List.ext_getElem
  · rw [hwft, hwfw]
  · intro i hi1 hi2
    have hiP : i < ts.prod := by rwa [hwft] at hi1
    have hv := validIdx_unravel ts i hiP
    have h := hget (unravel ts i) hv
    simp only [Tensor.get] at h
    rw [ravel_unravel ts i hiP] at h
    rw [List.getD_eq_getElem?_getD, List.getElem?_eq_getElem hi1] at h
    rw [List.getD_eq_getElem?_getD, List.getElem?_eq_getElem hi2] at h
    exact h

theorem grads_to_mat_biased_eq (m n : Nat) (W b : Tensor)
    (hW : W.shape = [m, n]) (hb : b.shape = [m]) :
    LinearLayer.grads_to_mat true [W, b] =
      some (Tensor.ofFn [m, n + 1] fun idx =>
        if idx.getD 1 0 < n then W.get idx
        else (b.unsqueeze 1).get [idx.getD 0 0, idx.getD 1 0 - n]) := by
  simp only [LinearLayer.grads_to_mat, Tensor.catCols, Tensor.unsqueeze, hW, hb, insertAt,
    Tensor.shape_ofFn, List.getD_cons_zero, List.getD_cons_succ]
  simp

theorem cat_biased_get_W (m n : Nat) (W b : Tensor) (i j : Nat) (hi : i < m) (hj : j < n) :
    (Tensor.ofFn [m, n + 1] fun idx =>
        if idx.getD 1 0 < n then W.get idx
        else (b.unsqueeze 1).get [idx.getD 0 0, idx.getD 1 0 - n]).get [i, j] = W.get [i, j] := by
  rw [Tensor.get_ofFn]
  · simp [List.getD_cons_zero, List.getD_cons_succ, hj]
  · simp only [validIdxB, Bool.and_eq_true, decide_eq_true_eq]
    exact ⟨hi, by omega, trivial⟩

theorem cat_biased_get_b (m n : Nat) (W b : Tensor) (hb : b.shape = [m]) (i : Nat)
    (hi : i < m) :
    (Tensor.ofFn [m, n + 1] fun idx =>
        if idx.getD 1 0 < n then W.get idx
        else (b.unsqueeze 1).get [idx.getD 0 0, idx.getD 1 0 - n]).get [i, n] = b.get [i] := by
  rw [Tensor.get_ofFn]
  · simp only [List.getD_cons_zero, List.getD_cons_succ, Nat.lt_irrefl, if_false,
      Nat.sub_self]
    rw [Tensor.get_unsqueeze]
    · rfl
    · simp [hb, insertAt, validIdxB, hi]
  · simp [validIdxB, hi]

theorem dropLastCol_shape (t : Tensor) (m n : Nat) (hts : t.shape = [m, n]) :
    t.dropLastCol.shape = [m, n - 1] := by
  simp [Tensor.dropLastCol, hts, List.getD_cons_zero, List.getD_cons_succ]

theorem dropLastCol_get (t : Tensor) (m n : Nat) (hts : t.shape = [m, n]) (i j : Nat)
    (hi : i < m) (hj : j < n - 1) :
    t.dropLastCol.get [i, j] = t.get [i, j] := by
  simp only [Tensor.dropLastCol, hts, List.getD_cons_zero, List.getD_cons_succ]
  rw [Tensor.get_ofFn]
  simp [validIdxB, hi, hj]

theorem lastCol_shape (t : Tensor) (m n : Nat) (hts : t.shape = [m, n]) :
    t.lastCol.shape = [m] := by
  simp [Tensor.lastCol, hts, List.getD_cons_zero, List.getD_cons_succ]

theorem lastCol_get (t : Tensor) (m n : Nat) (hts : t.shape = [m, n]) (i : Nat)
    (hi : i < m) :
    t.lastCol.get [i] = t.get [i, n - 1] := by
  simp only [Tensor.lastCol, hts, List.getD_cons_zero, List.getD_cons_succ]
  rw [Tensor.get_ofFn]
  · rfl
  · simp [validIdxB, hi]

theorem append_homog_shape (X : Tensor) (m n : Nat) (hX : X.shape = [m, n]) :
    (append_homog X).shape = [m, n + 1] := by
  simp [append_homog, hX, List.getD_cons_zero, List.getD_cons_succ]

theorem append_homog_get_last (X : Tensor) (m n : Nat) (hX : X.shape = [m, n]) (i : Nat)
    (hi : i < m) :
    (append_homog X).get [i, n] = 1 := by
  simp only [append_homog, hX, List.getD_cons_zero, List.getD_cons_succ]
  rw [Tensor.get_ofFn]
  · simp
  · simp [validIdxB, hi]

theorem append_homog_get (X : Tensor) (m n : Nat) (hX : X.shape = [m, n]) (i j : Nat)
    (hi : i < m) (hj : j < n) :
    (append_homog X).get [i, j] = X.get [i, j] := by
  simp only [append_homog, hX, List.getD_cons_zero, List.getD_cons_succ]
  rw [Tensor.get_ofFn]
  · simp [hj]
  · simp only [validIdxB, Bool.and_eq_true, decide_eq_true_eq]
    exact ⟨hi, by omega, trivial⟩

theorem conv_grads_mat_eq (m n1 n2 : Nat) (Wc bc : Tensor)
    (hWc : Wc.shape = [m, n1, n2]) (hbc : bc.shape = [m]) (hm : 0 < m) :
    ConvLayer.grads_mat true [Wc, bc] =
      some (Tensor.ofFn [m, n1 * n2 + 1] fun idx =>
        if idx.getD 1 0 < n1 * n2 then (Tensor.mk [m, n1 * n2] Wc.data).get idx
        else (bc.unsqueeze 1).get [idx.getD 0 0, idx.getD 1 0 - n1 * n2]) := by
  have hprod : Wc.shape.prod = m * (n1 * n2) := by
    rw [hWc]
    simp [List.prod_cons]
  have hview : Wc.view [(Wc.shape.getD 0 0 : Int), -1] =
      some ⟨[m, n1 * n2], Wc.data⟩ := by
    rw [Tensor.view, hprod, hWc]
    simp only [List.getD_cons_zero]
    rw [resolveShape_m_neg1 _ _ hm (by simp [Nat.mul_mod_right])]
    rw [Nat.mul_div_cancel_left _ hm]
    rfl
  simp only [ConvLayer.grads_mat, if_pos, hview, Option.bind_eq_bind, Option.some_bind]
  simp only [Tensor.catCols, Tensor.unsqueeze, hbc, insertAt, Tensor.shape_ofFn,
    List.getD_cons_zero, List.getD_cons_succ]
  simp


theorem Tensor.ofFn_wf (shape : List Nat) (f : List Nat → ℚ) : (Tensor.ofFn shape f).wf := by
  simp [Tensor.wf, Tensor.ofFn]

theorem cat_biased_dropLast (m n : Nat) (W b : Tensor)
    (hW : W.shape = [m, n]) (hwfW : W.wf) :
    (Tensor.ofFn [m, n + 1] fun idx =>
        if idx.getD 1 0 < n then W.get idx
        else (b.unsqueeze 1).get [idx.getD 0 0, idx.getD 1 0 - n]).dropLastCol = W := by
  apply Tensor.eq_of_get
  · rw [dropLastCol_shape _ m (n + 1) (Tensor.shape_ofFn _ _), hW]
    simp
  · simp only [Tensor.dropLastCol, Tensor.shape_ofFn, List.getD_cons_zero, List.getD_cons_succ]
    exact Tensor.ofFn_wf _ _
  · exact hwfW
  · intro idx hidx
    rw [hW] at hidx
    obtain ⟨i, j, rfl, hi, hj⟩ := validIdxB_two m n idx hidx
    rw [dropLastCol_get _ m (n + 1) (Tensor.shape_ofFn _ _) i j hi (by omega)]
    exact cat_biased_get_W m n W b i j hi hj

theorem cat_biased_last (m n : Nat) (W b : Tensor)
    (hb : b.shape = [m]) (hwfb : b.wf) :
    (Tensor.ofFn [m, n + 1] fun idx =>
        if idx.getD 1 0 < n then W.get idx
        else (b.unsqueeze 1).get [idx.getD 0 0, idx.getD 1 0 - n]).lastCol = b := by
  apply Tensor.eq_of_get
  · rw [lastCol_shape _ m (n + 1) (Tensor.shape_ofFn _ _), hb]
  · simp only [Tensor.lastCol, Tensor.shape_ofFn, List.getD_cons_zero, List.getD_cons_succ]
    exact Tensor.ofFn_wf _ _
  · exact hwfb
  · intro idx hidx
    rw [hb] at hidx
    obtain ⟨i, rfl, hi⟩ := validIdxB_one m idx hidx
    rw [lastCol_get _ m (n + 1) (Tensor.shape_ofFn _ _) i hi]
    exact cat_biased_get_b m n W b hb i hi

theorem view_flatten_3d (act : Tensor) (Bt L F : Nat) (hF : 0 < F)
    (hact : act.shape = [Bt, L, F]) :
    act.view [-1, (act.shape.getLastD 0 : Int)] = some ⟨[Bt * L, F], act.data⟩ := by
  have hprod : ([Bt, L, F] : List Nat).prod = Bt * L * F := by
    simp [List.prod_cons]
    ring
  rw [Tensor.view, hact, hprod]
  rw [show (([Bt, L, F] : List Nat).getLastD 0 : Int) = (F : Int) from rfl]
  rw [resolveShape_neg1_F _ _ hF (by simp [Nat.mul_mod_left])]
  rw [Nat.mul_div_cancel _ hF]
  rfl

/-! Part 3: the claim theorems. -/

/-- Claim C10: `mat_to_grads` inverts `grads_to_mat` — for a bias-carrying
linear layer, assembling a weight gradient of shape (m, n) with a bias
gradient of shape (m,) and splitting again returns both tensors unchanged,
and for a bias-free layer the weight gradient passes through unchanged. -/
theorem C10_grads_mat_roundtrip (m n : Nat) (W b : Tensor)
    (hW : W.shape = [m, n]) (hwfW : W.wf) (hb : b.shape = [m]) (hwfb : b.wf) :
    (LinearLayer.grads_to_mat true [W, b]).map (LinearLayer.mat_to_grads true) =
      some [W, b] ∧
    (LinearLayer.grads_to_mat false [W]).map (LinearLayer.mat_to_grads false) =
      some [W] := by
  refine ⟨?_, rfl⟩
  rw [grads_to_mat_biased_eq m n W b hW hb]
  show some [Tensor.dropLastCol _, Tensor.lastCol _] = some [W, b]
  rw [cat_biased_dropLast m n W b hW hwfW, cat_biased_last m n W b hb hwfb]

/-- Claim C8: when every configured padding is zero, `extract_patches`
performs no padding step (the input is windowed directly); when any padding
is non-zero, the input handed to the windowing loop is the padded tensor,
and that padding is symmetric and independent per spatial dimension with
constant-zero fill (the module's padding mode `zeros`, which
conv_layer.py:102-103 maps to constant fill with value 0): an index whose
spatial coordinates all fall inside the copied band reads the input shifted
by the per-dimension padding, and any index outside it reads 0. -/
theorem C8_padding_application (cfg : ConvLayer.Config) (x : Tensor) (B C : Nat)
    (spat : List Nat) (hx : x.shape = B :: C :: spat)
    (hlen : cfg.padding.length = spat.length) (b c : Nat) (ss : List Nat)
    (hvalid : validIdxB (B :: C :: List.zipWith (fun s q => s + 2 * q) spat cfg.padding)
      (b :: c :: ss) = true) :
    (cfg.padding.sum = 0 → ConvLayer.extract_patches cfg x = ConvLayer.window cfg x) ∧
    (0 < cfg.padding.sum →
      ConvLayer.extract_patches cfg x = ConvLayer.window cfg (padSpatial x cfg.padding)) ∧
    ((List.range cfg.padding.length).all (fun j =>
        decide (cfg.padding.getD j 0 ≤ ss.getD j 0) &&
        decide (ss.getD j 0 < cfg.padding.getD j 0 + spat.getD j 0)) = true →
      (padSpatial x cfg.padding).get (b :: c :: ss) =
        x.get (b :: c :: List.zipWith (fun i2 q => i2 - q) ss cfg.padding)) ∧
    ((List.range cfg.padding.length).all (fun j =>
        decide (cfg.padding.getD j 0 ≤ ss.getD j 0) &&
        decide (ss.getD j 0 < cfg.padding.getD j 0 + spat.getD j 0)) = false →
      (padSpatial x cfg.padding).get (b :: c :: ss) = 0) := by
  have hk : (B :: C :: spat : List Nat).length - cfg.padding.length = 2 := by
    simp only [List.length_cons, hlen]
    omega
  have hps : padSpatial x cfg.padding =
      Tensor.ofFn (B :: C :: List.zipWith (fun s q => s + 2 * q) spat cfg.padding)
        (fun idx =>
          if (List.range cfg.padding.length).all (fun j =>
              decide (cfg.padding.getD j 0 ≤ (idx.drop 2).getD j 0) &&
              decide ((idx.drop 2).getD j 0 < cfg.padding.getD j 0 + spat.getD j 0)) then
            x.get (idx.take 2 ++ List.zipWith (fun i2 q => i2 - q) (idx.drop 2) cfg.padding)
          else 0) := by
    simp only [padSpatial, hk, hx, List.take_succ_cons, List.take_zero, List.drop_succ_cons,
      List.drop_zero, List.cons_append, List.nil_append]
  refine ⟨fun h0 => by simp [ConvLayer.extract_patches, h0],
    fun hpos => by simp [ConvLayer.extract_patches, hpos], fun hg => ?_, fun hg => ?_⟩
  · rw [hps, Tensor.get_ofFn _ _ _ hvalid]
    rw [if_pos]
    · rfl
    · exact hg
  · rw [hps, Tensor.get_ofFn _ _ _ hvalid]
    have hg2 : ((List.range cfg.padding.length).all fun j =>
        decide (cfg.padding.getD j 0 ≤ (List.drop 2 (b :: c :: ss)).getD j 0) &&
        decide ((List.drop 2 (b :: c :: ss)).getD j 0 <
          cfg.padding.getD j 0 + spat.getD j 0)) = false := hg
    rw [if_neg (by rw [hg2]; simp)]

/-- Claim C1 is refuted by the code: for the 2-D convolution with kernel
(2,2), stride (1,1), zero padding on the well-shaped input of shape
(1,1,4,4), both per-dimension location counts are 3, so the claimed output
shape is (1, 3·3, 1·2·2) = (1, 9, 4); `extract_patches` instead merges the
location axes with their SUM (conv_layer.py:116) and returns shape
(1, 6, 6). -/
theorem C1_extract_patches_shape_sum_bug :
    (ConvLayer.extract_patches c1Cfg c1Input).map Tensor.shape = some [1, 6, 6] ∧
    ([1, 6, 6] : List Nat) ≠ [1, 9, 4] := by decide

/-- Claim C2 is refuted by the code for bias-free convolutional layers: with
identity covariance factors of the declared sizes and a weight gradient of
exactly the declared parameter shape (1,1,2), `multiply_preconditioner`
produces no gradients at all, because conv_layer.py:74 evaluates
`grads.shape` on the tuple of gradient tensors (AttributeError), modelled as
`none`. -/
theorem C2_multiply_preconditioner_unbiased_conv_fails :
    ConvLayer.multiply_preconditioner false eye2 eye1 actsFourLoc
      [wGradUnbiased] 0 = none := by with_unfolding_all rfl

/-- Claim C3 is refuted at a concrete input: for the 1-D convolution with
kernel 2, stride 1, no padding on the input of shape (1, 2, 3) whose entry at
(0, ch, s) is 10·ch + s, a channel-innermost flattened patch would put the
input entry (0, 1, 0) = 10 at feature index 1 of the patch at location 0
(feature index 1 decomposes as offset 0, channel 1 when channels vary
fastest); `extract_patches` instead returns the entry (0, 0, 1) = 1 there,
because the rearrangement at conv_layer.py:110 places the channel axis before
the kernel-offset axis. -/
theorem C3_channel_innermost_counterexample :
    (ConvLayer.extract_patches c3Cfg c3Input).map (fun t => t.get [0, 0, 1]) = some 1 ∧
    c3Input.get [0, 1, 0] = 10 ∧ ((1 : ℚ) ≠ 10) := by
  refine ⟨by with_unfolding_all rfl, by with_unfolding_all rfl, by norm_num⟩

/-- Claim C3 as amended: after the rearrangement the axes are
(batch, spatial locations, channel, kernel offsets), so within each flattened
patch the channel index is OUTERMOST and the kernel offset is the innermost
(fastest-varying) axis: for every 1-D convolutional layer (any kernel size,
stride and symmetric padding) the patch entry at feature index
channel·kernel_size + offset equals the padded input at spatial position
location·stride + offset of that channel, and the single spatial axis becomes
the location axis of the output.  (For n_dim ≥ 2 the merge of the location
axes is additionally broken by the sum-instead-of-product bug of claim C1.) -/
theorem C3_channel_outermost_amended
    (B C S k stride p b l c o : Nat) (x : Tensor)
    (hx : x.shape = [B, C, S]) (hB : 0 < B) (hfit : k ≤ S + 2 * p)
    (hb : b < B) (hl : l < (S + 2 * p - k) / stride + 1) (hc : c < C) (ho : o < k) :
    (ConvLayer.extract_patches ⟨[k], [stride], [p]⟩ x).map Tensor.shape =
      some [B, (S + 2 * p - k) / stride + 1, C * k] ∧
    (ConvLayer.extract_patches ⟨[k], [stride], [p]⟩ x).map
        (fun t => t.get [b, l, c * k + o]) =
      some ((padSpatial x [p]).get [b, c, l * stride + o]) := by
  obtain ⟨t, ht, hts, htg⟩ := extract_patches_1d k stride p B C S x hx hB hfit
  rw [ht]
  exact ⟨by simp [hts], by simp [htg b l c o hb hl hc ho]⟩

/-- Witness for the amended C3 theorem at the concrete instance. -/
theorem C3_channel_outermost_amended_witness :
    (ConvLayer.extract_patches ⟨[2], [1], [0]⟩ c3Input).map Tensor.shape =
      some [1, (3 + 2 * 0 - 2) / 1 + 1, 2 * 2] ∧
    (ConvLayer.extract_patches ⟨[2], [1], [0]⟩ c3Input).map
        (fun t => t.get [0, 0, 1 * 2 + 0]) =
      some ((padSpatial c3Input [0]).get [0, 1, 0 * 1 + 0]) :=
  C3_channel_outermost_amended 1 2 3 2 1 0 0 0 1 0 c3Input rfl (by decide) (by decide)
    (by decide) (by decide) (by decide) (by decide)

/-- Claim C4: for a 1-D convolutional layer with kernel size 3, stride 1 and
zero padding, patch extraction on any input of shape (2, 1, 5) yields shape
(2, 3, 3): 3 valid output locations and 3 features per patch. -/
theorem C4_patch_extraction_shape (x : Tensor) (hx : x.shape = [2, 1, 5]) :
    (ConvLayer.extract_patches ⟨[3], [1], [0]⟩ x).map Tensor.shape = some [2, 3, 3] := by
  obtain ⟨t, ht, hts, _⟩ := extract_patches_1d 3 1 0 2 1 5 x hx (by decide) (by decide)
  rw [ht]
  simpa using hts

/-- Witness for the C4 theorem at a concrete input tensor. -/
theorem C4_patch_extraction_shape_witness :
    (ConvLayer.extract_patches ⟨[3], [1], [0]⟩ c4Input).map Tensor.shape = some [2, 3, 3] :=
  C4_patch_extraction_shape c4Input rfl

/-- Claim C5: the convolutional `update_cov` (conv_layer.py:45-59) computes
exactly what the linear `update_cov` (linear_layer.py:36-48) computes on the
captured tensors flattened with `reshape(-1, shape[-1])` — same optional
centering, same bias-homogeneous column, same Gram-matrix covariance, same
accumulator folding — and on tensors of shape (batch, locations, features)
that flattening is precisely to shape (batch·locations, features). -/
theorem C5_conv_update_cov_is_linear_on_flattened
    (centerFlag has_bias : Bool) (act sen : Tensor) (accA accS : CovAccumulator)
    (Bt L F F2 : Nat) (hF : 0 < F) (hact : act.shape = [Bt, L, F])
    (hF2 : 0 < F2) (hsen : sen.shape = [Bt, L, F2]) :
    (ConvLayer.update_cov centerFlag has_bias act sen accA accS =
      (act.view [-1, (act.shape.getLastD 0 : Int)]).bind fun a =>
      (sen.view [-1, (sen.shape.getLastD 0 : Int)]).bind fun s =>
      LinearLayer.update_cov centerFlag has_bias a s accA accS) ∧
    act.view [-1, (act.shape.getLastD 0 : Int)] = some ⟨[Bt * L, F], act.data⟩ ∧
    sen.view [-1, (sen.shape.getLastD 0 : Int)] = some ⟨[Bt * L, F2], sen.data⟩ :=
  ⟨rfl, view_flatten_3d act Bt L F hF hact, view_flatten_3d sen Bt L F2 hF2 hsen⟩

/-- Witness for the C5 theorem at concrete captures and accumulators. -/
theorem C5_conv_update_cov_is_linear_on_flattened_witness :
    (ConvLayer.update_cov true true actsTwoLoc sensTwoLoc accA3 accS1 =
      (actsTwoLoc.view [-1, (actsTwoLoc.shape.getLastD 0 : Int)]).bind fun a =>
      (sensTwoLoc.view [-1, (sensTwoLoc.shape.getLastD 0 : Int)]).bind fun s =>
      LinearLayer.update_cov true true a s accA3 accS1) ∧
    actsTwoLoc.view [-1, (actsTwoLoc.shape.getLastD 0 : Int)] =
      some ⟨[1 * 2, 2], actsTwoLoc.data⟩ ∧
    sensTwoLoc.view [-1, (sensTwoLoc.shape.getLastD 0 : Int)] =
      some ⟨[1 * 2, 1], sensTwoLoc.data⟩ :=
  C5_conv_update_cov_is_linear_on_flattened true true actsTwoLoc sensTwoLoc accA3 accS1 1 2 2 1 (by decide) rfl
    (by decide) rfl

/-- Claim C6: for bias-carrying layers both augmentations sit in the same,
last position: `append_homog` puts the constant-one column last in the
activation matrix (used by both layers' update_cov), `grads_to_mat` and the
convolutional gradient assembly put the bias gradient last in the assembled
matrix, and the splits (`mat_to_grads`, and the slice at the end of the
convolutional multiply_preconditioner) take the bias piece from that same
last column while the remaining columns are the weight piece unchanged. -/
theorem C6_bias_column_appended_last (m n n1 n2 : Nat) (X W b M Wc bc : Tensor)
    (hX : X.shape = [m, n]) (hW : W.shape = [m, n]) (hb : b.shape = [m])
    (hM : M.shape = [m, n + 1]) (hWc : Wc.shape = [m, n1, n2]) (hbc : bc.shape = [m])
    (hm : 0 < m) (i j : Nat) (hi : i < m) (hj : j < n) :
    ((append_homog X).shape = [m, n + 1] ∧
     (append_homog X).get [i, n] = 1 ∧
     (append_homog X).get [i, j] = X.get [i, j]) ∧
    ((LinearLayer.grads_to_mat true [W, b]).map Tensor.shape = some [m, n + 1] ∧
     (LinearLayer.grads_to_mat true [W, b]).map (fun t => t.get [i, n]) =
       some (b.get [i]) ∧
     (LinearLayer.grads_to_mat true [W, b]).map (fun t => t.get [i, j]) =
       some (W.get [i, j])) ∧
    ((ConvLayer.grads_mat true [Wc, bc]).map Tensor.shape = some [m, n1 * n2 + 1] ∧
     (ConvLayer.grads_mat true [Wc, bc]).map (fun t => t.get [i, n1 * n2]) =
       some (bc.get [i])) ∧
    (LinearLayer.mat_to_grads true M = [M.dropLastCol, M.lastCol] ∧
     M.dropLastCol.shape = [m, n] ∧
     M.lastCol.get [i] = M.get [i, n] ∧
     M.dropLastCol.get [i, j] = M.get [i, j]) := by
  refine ⟨⟨append_homog_shape X m n hX, append_homog_get_last X m n hX i hi,
      append_homog_get X m n hX i j hi hj⟩, ⟨?_, ?_, ?_⟩, ⟨?_, ?_⟩, ⟨rfl, ?_, ?_, ?_⟩⟩
  · rw [grads_to_mat_biased_eq m n W b hW hb]
    rfl
  · rw [grads_to_mat_biased_eq m n W b hW hb]
    simp only [Option.map_some', Option.some.injEq]
    exact cat_biased_get_b m n W b hb i hi
  · rw [grads_to_mat_biased_eq m n W b hW hb]
    simp only [Option.map_some', Option.some.injEq]
    exact cat_biased_get_W m n W b i j hi hj
  · rw [conv_grads_mat_eq m n1 n2 Wc bc hWc hbc hm]
    rfl
  · rw [conv_grads_mat_eq m n1 n2 Wc bc hWc hbc hm]
    simp only [Option.map_some', Option.some.injEq]
    exact cat_biased_get_b m (n1 * n2) _ bc hbc i hi
  · simpa using dropLastCol_shape M m (n + 1) hM
  · exact lastCol_get M m (n + 1) hM i hi
  · exact dropLastCol_get M m (n + 1) hM i j hi (by omega)

/-- Witness for the C6 theorem at concrete matrices. -/
theorem C6_bias_column_appended_last_witness :
    ((append_homog actX6).shape = [2, 1 + 1] ∧
     (append_homog actX6).get [0, 1] = 1 ∧
     (append_homog actX6).get [0, 0] = actX6.get [0, 0]) ∧
    ((LinearLayer.grads_to_mat true [gradW6, gradB6]).map Tensor.shape =
       some [2, 1 + 1] ∧
     (LinearLayer.grads_to_mat true [gradW6, gradB6]).map (fun t => t.get [0, 1]) =
       some (gradB6.get [0]) ∧
     (LinearLayer.grads_to_mat true [gradW6, gradB6]).map (fun t => t.get [0, 0]) =
       some (gradW6.get [0, 0])) ∧
    ((ConvLayer.grads_mat true [gradWc6, gradBc6]).map Tensor.shape =
       some [2, 1 * 1 + 1] ∧
     (ConvLayer.grads_mat true [gradWc6, gradBc6]).map (fun t => t.get [0, 1 * 1]) =
       some (gradBc6.get [0])) ∧
    (LinearLayer.mat_to_grads true matM6 = [matM6.dropLastCol, matM6.lastCol] ∧
     matM6.dropLastCol.shape = [2, 1] ∧
     matM6.lastCol.get [0] = matM6.get [0, 1] ∧
     matM6.dropLastCol.get [0, 0] = matM6.get [0, 0]) :=
  C6_bias_column_appended_last 2 1 1 1 actX6 gradW6 gradB6 matM6 gradWc6 gradBc6 rfl rfl rfl rfl rfl rfl
    (by decide) 0 0 (by decide) (by decide)

/-- Witness for the C8 theorem at a concrete padded convolution. -/
theorem C8_padding_application_witness :
    (([1] : List Nat).sum = 0 →
      ConvLayer.extract_patches padCfg padInput = ConvLayer.window padCfg padInput) ∧
    (0 < ([1] : List Nat).sum →
      ConvLayer.extract_patches padCfg padInput =
        ConvLayer.window padCfg (padSpatial padInput [1])) ∧
    ((List.range ([1] : List Nat).length).all (fun j =>
        decide (([1] : List Nat).getD j 0 ≤ ([0] : List Nat).getD j 0) &&
        decide (([0] : List Nat).getD j 0 <
          ([1] : List Nat).getD j 0 + ([3] : List Nat).getD j 0)) = true →
      (padSpatial padInput [1]).get [0, 0, 0] =
        padInput.get (0 :: 0 :: List.zipWith (fun i2 q => i2 - q) [0] [1])) ∧
    ((List.range ([1] : List Nat).length).all (fun j =>
        decide (([1] : List Nat).getD j 0 ≤ ([0] : List Nat).getD j 0) &&
        decide (([0] : List Nat).getD j 0 <
          ([1] : List Nat).getD j 0 + ([3] : List Nat).getD j 0)) = false →
      (padSpatial padInput [1]).get [0, 0, 0] = 0) :=
  C8_padding_application padCfg padInput 1 1 [3] rfl rfl 0 0 [0] (by decide)

/-- Witness for the C10 theorem at concrete gradients. -/
theorem C10_grads_mat_roundtrip_witness :
    (LinearLayer.grads_to_mat true [linW10, linB10]).map (LinearLayer.mat_to_grads true) =
      some [linW10, linB10] ∧
    (LinearLayer.grads_to_mat false [linW10]).map (LinearLayer.mat_to_grads false) =
      some [linW10] :=
  C10_grads_mat_roundtrip 2 3 linW10 linB10 rfl rfl rfl rfl

/-- Claim C7: for a bias-carrying convolutional layer the Kronecker-
preconditioned gradient matrix is divided by the spatial-location count
(axis 1 of the captured activations) before the split and reshape: with
identity factors and damping 0 the assembled matrix [[1,2,5],[3,4,6]] comes
back divided by the 2 locations of `actsTwoLoc`.  For a bias-free layer the
claim fails: conv_layer.py:74 evaluates `grads.shape` on the gradient tuple
(AttributeError, modelled as `none`), so the division is never reached. -/
theorem C7_renorm_coeff_division :
    ConvLayer.multiply_preconditioner true eye3 eye2 actsTwoLoc
        [wGradBiased, bGradBiased] 0 =
      some [⟨[2, 1, 2], [1/2, 1, 3/2, 2]⟩, ⟨[2], [5/2, 3]⟩] ∧
    ConvLayer.multiply_preconditioner false eye2 eye1 actsTwoLoc
        [wGradUnbiased] 0 = none := by
  refine ⟨?_, ?_⟩ <;> with_unfolding_all rfl

/-- Claim C9: the identity layer's `multiply_preconditioner` returns the
gradients unchanged for every gradient list and damping value, `update_cov`
changes no observable state, and `vars` is empty. -/
theorem C9_identity_layer_is_noop (s : IdentityLayer.State)
    (grads : List Tensor) (damping : ℚ) :
    IdentityLayer.multiply_preconditioner grads damping = grads ∧
    IdentityLayer.update_cov s = s ∧
    IdentityLayer.vars = ([] : List Tensor) :=
  ⟨rfl, rfl, rfl⟩
